import Mathlib

/-!
Verification of the e-cash driver (`src/driver.js`).

The driver implements the merchant acceptance protocol (`acceptCoin`),
signature verification (`verifySignature`) and the cheater-determination
algorithm (`determineCheater`) of an anonymous e-cash scheme.

Modelling conventions:
* JavaScript strings and byte buffers are modelled as `List Nat` (byte values).
* JavaScript exceptions are modelled with `Except`; a `try { } catch { }`
  block is modelled by matching on the `Except` value of the tried code.
* `COIN_RIS_LENGTH` and `IDENT_STR` are module constants of `coin.js`, which
  is not part of the sources; following the spec they are protocol-wide
  parameters, so every definition takes them as explicit arguments
  (`n` and `identStr`).
* The external blind-signature primitive `blindSignatures.verify` (an npm
  library, out of scope per the spec) is passed in as a function argument
  `bsVerify`; a `.error` result models the primitive throwing.
-/

/-- Byte value of the character that is a colon, the delimiter of the
`IDENT_STR:purchaserIdentity` format. -/
def colonByte : Nat := 58

/-- Bytes of the string that reads merchant, the verdict returned by
`determineCheater` when no position identifies a purchaser. -/
def merchantStr : List Nat := [109, 101, 114, 99, 104, 97, 110, 116]

/-- Bytes of the string that reads alice, the purchaser identity used in the
driver's double-spend scenario. -/
def aliceStr : List Nat := [97, 108, 105, 99, 101]

/-- Modelled from the spec: the one-time-pad combine/decode primitive of
`utils.js` (missing from the sources). Per the spec it is an XOR-style
operation over equal-length byte strings; on mismatched lengths it fails
(`none` models the primitive throwing, caught by `determineCheater`). -/
def decryptOTP (key ciphertext : List Nat) : Option (List Nat) :=
  if key.length = ciphertext.length then
    some (List.zipWith (fun a b => a ^^^ b) key ciphertext)
  else
    none

/-- One RIS element of an acceptance transcript, as recorded by
`acceptCoin`: `{ position: i, isLeft: selectLeft, value: element,
hash: expectedHash }`. -/
structure RisElement where
  position : Nat
  isLeft : Bool
  value : List Nat
  hash : List Nat
deriving DecidableEq, Repr

/-- Errors thrown by `determineCheater`: the explicit
`Invalid RIS data format` throw when an input is not an array, and the
implicit TypeError raised by `ris[i].value` when index `i` is out of range
(JavaScript yields `undefined` and the member access throws). -/
inductive DCError where
  | invalidFormat
  | typeError
deriving DecidableEq, Repr

/-- Outcome of one iteration of the scanning loop of `determineCheater` at
position `i`: `ret v` models `return v` (where `none` is the JavaScript
value `undefined`), `cont` models falling through to the next iteration, and
`crash` models the TypeError on an out-of-range index. -/
inductive StepRes where
  | ret : Option (List Nat) → StepRes
  | cont : StepRes
  | crash : StepRes
deriving DecidableEq, Repr

/-- The part of `decrypted.split(\x27:\x27)[1]` after the first separator:
everything up to the next separator or the end of the string. -/
def takeUntilByte (c : Nat) : List Nat → List Nat
  | [] => []
  | x :: xs => if x = c then [] else x :: takeUntilByte c xs

/-- The remainder of the string after the first occurrence of the separator
`c`, or `none` (JavaScript: the split has a single field) if `c` does not
occur. -/
def dropThroughByte (c : Nat) : List Nat → Option (List Nat)
  | [] => none
  | x :: xs => if x = c then some xs else dropThroughByte c xs

/-- `s.split(c)[1]` of JavaScript: the second field of the split, which is
`undefined` (`none`) when the separator does not occur in `s`. -/
def jsSplitSecond (c : Nat) (s : List Nat) : Option (List Nat) :=
  (dropThroughByte c s).map (takeUntilByte c)

/-- The body of the scanning loop of `determineCheater` at position `i`
(src/driver.js lines 95-111): if the two values differ, one-time-pad decode
them (a decode error is caught and the loop continues); if the decoded
string starts with `identStr`, return `decrypted.split(\x27:\x27)[1]`. -/
def dcStep (identStr : List Nat) (ris1 ris2 : List RisElement) (i : Nat) : StepRes :=
  match ris1.get? i, ris2.get? i with
  | some a, some b =>
    if a.value = b.value then
      StepRes.cont
    else
      match decryptOTP a.value b.value with
      | none => StepRes.cont
      | some decrypted =>
        if identStr.isPrefixOf decrypted then
          StepRes.ret (jsSplitSecond colonByte decrypted)
        else
          StepRes.cont
  | _, _ => StepRes.crash

/-- The scanning loop `for (let i = 0; i < COIN_RIS_LENGTH; i++)` of
`determineCheater`, starting at position `i` with `fuel` iterations left;
when the loop runs out it returns the merchant verdict. -/
def dcScan (identStr : List Nat) (ris1 ris2 : List RisElement) : Nat → Nat → Except DCError (Option (List Nat))
  | _, 0 => Except.ok (some merchantStr)
  | i, fuel + 1 =>
    match dcStep identStr ris1 ris2 i with
    | StepRes.ret v => Except.ok v
    | StepRes.crash => Except.error DCError.typeError
    | StepRes.cont => dcScan identStr ris1 ris2 (i + 1) fuel

/-- `determineCheater(guid, ris1, ris2)` of src/driver.js lines 89-116.
`n` is `COIN_RIS_LENGTH` and `identStr` is `IDENT_STR` (constants of the
missing `coin.js`). A transcript argument is `none` when the caller passed
a non-array value, making `Array.isArray` false. The result is
`Except.ok (some s)` for `return s`, `Except.ok none` for returning
`undefined`, and `Except.error e` for a thrown error. -/
def determineCheater (n : Nat) (identStr : List Nat) (_guid : List Nat)
    (ris1 ris2 : Option (List RisElement)) : Except DCError (Option (List Nat)) :=
  match ris1, ris2 with
  | some r1, some r2 => dcScan identStr r1 r2 0 n
  | _, _ => Except.error DCError.invalidFormat

/-- JavaScript runtime errors that the verification code can raise inside
the `try` block of `verifySignature`: the TypeError of
`coin.signature.toString()` when the signature is absent, and any error
thrown by the external `blindSignatures.verify` primitive. -/
inductive JsErr where
  | typeError
  | otherError
deriving DecidableEq, Repr

/-- Modelled from the spec: the `Coin` record of `coin.js` (missing from the
sources), per spec section 3. Shares and hashes are ordered sequences; the
signature is initially absent (`none`). A transient RIS disclosure is read
through `Coin.getRis`. -/
structure Coin where
  guid : List Nat
  purchaserIdentity : List Nat
  amount : Nat
  leftIdent : List (List Nat)
  rightIdent : List (List Nat)
  leftHashes : List (List Nat)
  rightHashes : List (List Nat)
  signature : Option Int
deriving DecidableEq, Repr

/-- Modelled from the spec: `coin.toString()`, the canonical serialization
of the coin's commitments, amount and identity-derived data, sufficient to
recompute the signed message deterministically (spec section 6). -/
def Coin.toString (c : Coin) : List Nat :=
  c.leftHashes.flatten ++ c.rightHashes.flatten ++ [c.amount] ++ c.purchaserIdentity

/-- Modelled from the spec: `coin.getRis(isLeft, i)` of `coin.js` (missing
from the sources), the read-only accessor returning the disclosed share of
position `i` on the chosen side (spec section 4.3 step 2). -/
def Coin.getRis (c : Coin) (isLeft : Bool) (i : Nat) : List Nat :=
  if isLeft then (c.leftIdent.get? i).getD [] else (c.rightIdent.get? i).getD []

/-- `verifySignature(coin)` of src/driver.js lines 45-57. The external
primitive `blindSignatures.verify` (with the bank key `N`, `E` fixed) is the
argument `bsVerify`, taking the unblinded signature and the message; an
`Except.error` result of `bsVerify` models the primitive throwing. The
`try` block first evaluates `coin.signature.toString()`, which throws a
TypeError when the signature is absent; every error is caught and turned
into the return value `false`. -/
def verifySignature (bsVerify : Int → List Nat → Except JsErr Bool)
    (coin : Coin) : Except JsErr Bool :=
  match (match coin.signature with
         | none => Except.error JsErr.typeError
         | some s => bsVerify s (Coin.toString coin) : Except JsErr Bool) with
  | Except.ok b => Except.ok b
  | Except.error _ => Except.ok false

/-- Errors of `acceptCoin`: the explicit invalid-signature throw, the
ReferenceError raised by the call `parseCoin(coin.toString())` — the
identifier `parseCoin` is neither defined nor imported anywhere in
src/driver.js, so evaluating it throws — the RIS validation throw of the
disclosure loop, and propagation of an error of `verifySignature`. -/
inductive AcceptError where
  | invalidSignature
  | referenceError
  | risTamper (i : Nat)
  | jsError (e : JsErr)
deriving DecidableEq, Repr

/-- Result of one `acceptCoin` call: the returned transcript or the thrown
error, together with the log of `coin.getRis` calls the run issued (used to
state that no disclosure challenge happens on a rejected coin). -/
structure AcceptOutcome where
  result : Except AcceptError (List RisElement)
  getRisCalls : List (Bool × Nat)
deriving Repr

/-- `acceptCoin(coin)` of src/driver.js lines 60-86. Signature verification
is evaluated first; on failure the invalid-signature error is thrown before
any disclosure challenge. When verification succeeds, the next statement
evaluates `parseCoin(coin.toString())`; `parseCoin` is not defined or
imported in the file, so the call throws a ReferenceError and the
disclosure loop (lines 68-83) is never reached: no `getRis` call is ever
issued and no transcript is ever returned. -/
def acceptCoin (bsVerify : Int → List Nat → Except JsErr Bool)
    (coin : Coin) : AcceptOutcome :=
  match verifySignature bsVerify coin with
  | Except.error e => { result := Except.error (AcceptError.jsError e), getRisCalls := [] }
  | Except.ok false => { result := Except.error AcceptError.invalidSignature, getRisCalls := [] }
  | Except.ok true => { result := Except.error AcceptError.referenceError, getRisCalls := [] }

/-- Whether `t` is an acceptance transcript of `coin` with `n` positions:
it has length `n` and at every position records the share disclosed by
`coin.getRis` on the side the merchant chose (spec sections 3 and 4.3). -/
def isTranscriptOf (coin : Coin) (n : Nat) (t : List RisElement) : Bool :=
  t.length == n &&
    (List.range n).all fun i =>
      match t.get? i with
      | some e => e.value == coin.getRis e.isLeft i
      | none => false

/-- Modelled from the spec: the commitment-layer guarantee of `coin.js`
(spec section 4.1) that for every position the left and right shares have
equal length and their one-time-pad combination is exactly
`identStr` ++ colon ++ `ident`. -/
def coinEncodes (identStr ident : List Nat) (n : Nat) (coin : Coin) : Bool :=
  (List.range n).all fun i =>
    match coin.leftIdent.get? i, coin.rightIdent.get? i with
    | some l, some r =>
      l.length == r.length &&
        List.zipWith (fun a b => a ^^^ b) l r == identStr ++ colonByte :: ident
    | _, _ => false

/-- Sample left share of a one-position coin for the identity alice with
sentinel byte 73; used to evaluate the theorems on concrete inputs. -/
def sampleLeftShare : List Nat := [1, 1, 1, 1, 1, 1, 1]

/-- Sample right share: XOR of `sampleLeftShare` with the plaintext
`[73] ++ colonByte :: aliceStr`. -/
def sampleRightShare : List Nat := [72, 59, 96, 109, 104, 98, 100]

/-- A sample RIS element disclosing the left share. -/
def sampleElemL : RisElement :=
  { position := 0, isLeft := true, value := sampleLeftShare, hash := [] }

/-- A sample RIS element disclosing the right share. -/
def sampleElemR : RisElement :=
  { position := 0, isLeft := false, value := sampleRightShare, hash := [] }

/-- A sample RIS element with an arbitrary two-byte value. -/
def sampleElemA : RisElement := { position := 0, isLeft := true, value := [1, 2], hash := [] }

/-- A sample RIS element whose value has a different length than
`sampleElemA`, so that one-time-pad decoding against it fails. -/
def sampleElemC : RisElement := { position := 0, isLeft := true, value := [5], hash := [] }

/-- A sample signed one-position coin for the identity alice. -/
def sampleCoin : Coin :=
  { guid := [7], purchaserIdentity := aliceStr, amount := 20,
    leftIdent := [sampleLeftShare], rightIdent := [sampleRightShare],
    leftHashes := [[9]], rightHashes := [[8]], signature := some 0 }

/-- The sample coin before issuance: its signature is absent. -/
def sampleCoinUnsigned : Coin :=
  { guid := [7], purchaserIdentity := aliceStr, amount := 20,
    leftIdent := [sampleLeftShare], rightIdent := [sampleRightShare],
    leftHashes := [[9]], rightHashes := [[8]], signature := none }

/-! ### Helper lemmas -/

theorem isPrefixOf_self_append (xs ys : List Nat) : xs.isPrefixOf (xs ++ ys) = true := by
  rw [List.isPrefixOf_iff_prefix]
  exact List.prefix_append xs ys

theorem takeUntilByte_of_not_mem (c : Nat) (ys : List Nat) (h : c ∉ ys) :
    takeUntilByte c ys = ys := by
  induction ys with
  | nil => rfl
  | cons y ys ih =>
    have hy : y ≠ c := fun hyc => h (hyc ▸ List.mem_cons_self y ys)
    simp only [takeUntilByte, if_neg hy]
    rw [ih (fun hc => h (List.mem_cons_of_mem y hc))]

theorem dropThroughByte_append (c : Nat) (xs ys : List Nat) (h : c ∉ xs) :
    dropThroughByte c (xs ++ c :: ys) = some ys := by
  induction xs with
  | nil => simp [dropThroughByte]
  | cons x xs ih =>
    have hx : x ≠ c := fun hxc => h (hxc ▸ List.mem_cons_self x xs)
    simp only [List.cons_append, dropThroughByte, if_neg hx]
    exact ih (fun hc => h (List.mem_cons_of_mem x hc))

theorem jsSplitSecond_delimited (c : Nat) (xs ys : List Nat) (hx : c ∉ xs) (hy : c ∉ ys) :
    jsSplitSecond c (xs ++ c :: ys) = some ys := by
  rw [jsSplitSecond, dropThroughByte_append c xs ys hx]
  simp only [Option.map_some']
  rw [takeUntilByte_of_not_mem c ys hy]

theorem zipWithXor_comm (l r : List Nat) :
    List.zipWith (fun a b => a ^^^ b) l r = List.zipWith (fun a b => a ^^^ b) r l :=
  List.zipWith_comm_of_comm _ (fun x y => Nat.xor_comm x y) l r

theorem dcStep_congr (identStr : List Nat) (r1 r2 r1' r2' : List RisElement) (i : Nat)
    (h1 : r1'.get? i = r1.get? i) (h2 : r2'.get? i = r2.get? i) :
    dcStep identStr r1' r2' i = dcStep identStr r1 r2 i := by
  simp only [dcStep, h1, h2]

theorem dcStep_ne_crash (identStr : List Nat) (r1 r2 : List RisElement) (i : Nat)
    (h1 : i < r1.length) (h2 : i < r2.length) :
    dcStep identStr r1 r2 i ≠ StepRes.crash := by
  have ha := List.get?_eq_get h1
  have hb := List.get?_eq_get h2
  simp only [dcStep, ha, hb]
  split
  · simp
  · split
    · simp
    · split <;> simp

theorem dcScan_all_cont (identStr : List Nat) (r1 r2 : List RisElement) :
    ∀ fuel i, (∀ j, i ≤ j → j < i + fuel → dcStep identStr r1 r2 j = StepRes.cont) →
      dcScan identStr r1 r2 i fuel = Except.ok (some merchantStr) := by
  intro fuel
  induction fuel with
  | zero => exact fun i _ => rfl
  | succ fuel ih =>
    intro i h
    have hi : dcStep identStr r1 r2 i = StepRes.cont := h i le_rfl (by omega)
    simp only [dcScan, hi]
    exact ih (i + 1) (fun j hj1 hj2 => h j (by omega) (by omega))

theorem dcScan_reach (identStr : List Nat) (r1 r2 : List RisElement) (t : Nat)
    (v : Option (List Nat)) :
    ∀ fuel i, i ≤ t → t < i + fuel →
      (∀ j, i ≤ j → j < t → dcStep identStr r1 r2 j = StepRes.cont) →
      dcStep identStr r1 r2 t = StepRes.ret v →
      dcScan identStr r1 r2 i fuel = Except.ok v := by
  intro fuel
  induction fuel with
  | zero => omega
  | succ fuel ih =>
    intro i hit htf hcont hret
    by_cases hi : i = t
    · subst hi
      simp only [dcScan, hret]
    · have hlt : i < t := by omega
      have hstep : dcStep identStr r1 r2 i = StepRes.cont := hcont i le_rfl hlt
      simp only [dcScan, hstep]
      exact ih (i + 1) (by omega) (by omega) (fun j hj1 hj2 => hcont j (by omega) hj2) hret

theorem dcScan_no_crash (identStr : List Nat) (r1 r2 : List RisElement) :
    ∀ fuel i, (∀ j, i ≤ j → j < i + fuel → dcStep identStr r1 r2 j ≠ StepRes.crash) →
      ∃ v, dcScan identStr r1 r2 i fuel = Except.ok v := by
  intro fuel
  induction fuel with
  | zero => exact fun i _ => ⟨some merchantStr, rfl⟩
  | succ fuel ih =>
    intro i h
    cases hstep : dcStep identStr r1 r2 i with
    | ret v => exact ⟨v, by simp only [dcScan, hstep]⟩
    | cont =>
      obtain ⟨v, hv⟩ := ih (i + 1) (fun j hj1 hj2 => h j (by omega) (by omega))
      exact ⟨v, by simp only [dcScan, hstep]; exact hv⟩
    | crash => exact absurd hstep (h i le_rfl (by omega))

theorem dcScan_cases (identStr : List Nat) (r1 r2 : List RisElement) (v : Option (List Nat)) :
    ∀ fuel i, (∀ j, i ≤ j → j < i + fuel →
        dcStep identStr r1 r2 j = StepRes.cont ∨ dcStep identStr r1 r2 j = StepRes.ret v) →
      dcScan identStr r1 r2 i fuel = Except.ok v ∨
        dcScan identStr r1 r2 i fuel = Except.ok (some merchantStr) := by
  intro fuel
  induction fuel with
  | zero => exact fun i _ => Or.inr rfl
  | succ fuel ih =>
    intro i h
    cases h i le_rfl (by omega) with
    | inl hc =>
      simp only [dcScan, hc]
      exact ih (i + 1) (fun j hj1 hj2 => h j (by omega) (by omega))
    | inr hr =>
      refine Or.inl ?_
      simp only [dcScan, hr]

theorem dcScan_not_invalidFormat (identStr : List Nat) (r1 r2 : List RisElement) :
    ∀ fuel i, dcScan identStr r1 r2 i fuel ≠ Except.error DCError.invalidFormat := by
  intro fuel
  induction fuel with
  | zero => intro i; simp [dcScan]
  | succ fuel ih =>
    intro i
    cases hstep : dcStep identStr r1 r2 i with
    | ret v => simp [dcScan, hstep]
    | cont => simp only [dcScan, hstep]; exact ih (i + 1)
    | crash => simp [dcScan, hstep]

theorem isTranscriptOf_length {coin : Coin} {n : Nat} {t : List RisElement}
    (h : isTranscriptOf coin n t = true) : t.length = n := by
  unfold isTranscriptOf at h
  have hlen := (Bool.and_eq_true_iff.mp h).1
  simpa using hlen

theorem isTranscriptOf_get {coin : Coin} {n : Nat} {t : List RisElement}
    (h : isTranscriptOf coin n t = true) (i : Nat) (hi : i < n) :
    ∃ e : RisElement, t.get? i = some e ∧ e.value = coin.getRis e.isLeft i := by
  unfold isTranscriptOf at h
  have hall := (Bool.and_eq_true_iff.mp h).2
  rw [List.all_eq_true] at hall
  have hmem := hall i (List.mem_range.mpr hi)
  cases hti : t.get? i with
  | none => rw [hti] at hmem; exact absurd hmem (by simp)
  | some e =>
    rw [hti] at hmem
    exact ⟨e, rfl, by simpa using hmem⟩

theorem coinEncodes_get {identStr ident : List Nat} {n : Nat} {coin : Coin}
    (h : coinEncodes identStr ident n coin = true) (i : Nat) (hi : i < n) :
    ∃ l r : List Nat, coin.leftIdent.get? i = some l ∧ coin.rightIdent.get? i = some r ∧
      l.length = r.length ∧
      List.zipWith (fun a b => a ^^^ b) l r = identStr ++ colonByte :: ident := by
  unfold coinEncodes at h
  rw [List.all_eq_true] at h
  have hmem := h i (List.mem_range.mpr hi)
  cases hli : coin.leftIdent.get? i with
  | none => rw [hli] at hmem; exact absurd hmem (by simp)
  | some l =>
    cases hri : coin.rightIdent.get? i with
    | none => rw [hli, hri] at hmem; exact absurd hmem (by simp)
    | some r =>
      rw [hli, hri] at hmem
      simp only [Bool.and_eq_true_iff, beq_iff_eq] at hmem
      exact ⟨l, r, rfl, rfl, hmem.1, hmem.2⟩

/-! ### Claim theorems -/

/-- C1: For every pair of transcripts and every position `i` scanned in
order (all earlier positions fell through), if the two values at `i` differ
and their one-time-pad combination decodes to a string of the delimited
format `identStr` ++ colon ++ `ident`, then `determineCheater` returns the
purchaser identity `ident` parsed from the remainder immediately: the
result does not depend on the transcripts beyond position `i`. -/
theorem determineCheater_returns_identity_immediately
    (n : Nat) (identStr guid : List Nat) (r1 r2 : List RisElement)
    (i : Nat) (a b : RisElement) (ident : List Nat)
    (hin : i < n)
    (hscan : ∀ j, j < i → dcStep identStr r1 r2 j = StepRes.cont)
    (ha : r1.get? i = some a) (hb : r2.get? i = some b)
    (hne : a.value ≠ b.value)
    (hdec : decryptOTP a.value b.value = some (identStr ++ colonByte :: ident))
    (hc1 : colonByte ∉ identStr) (hc2 : colonByte ∉ ident) :
    determineCheater n identStr guid (some r1) (some r2) = Except.ok (some ident) ∧
      ∀ r1' r2' : List RisElement,
        (∀ j, j ≤ i → r1'.get? j = r1.get? j ∧ r2'.get? j = r2.get? j) →
        determineCheater n identStr guid (some r1') (some r2') = Except.ok (some ident) := by
  have hstep : dcStep identStr r1 r2 i = StepRes.ret (some ident) := by
    simp only [dcStep, ha, hb, if_neg hne, hdec, isPrefixOf_self_append, if_true]
    rw [jsSplitSecond_delimited colonByte identStr ident hc1 hc2]
  constructor
  · show dcScan identStr r1 r2 0 n = Except.ok (some ident)
    exact dcScan_reach identStr r1 r2 i (some ident) n 0 (Nat.zero_le i) (by omega)
      (fun j _ hj => hscan j hj) hstep
  · intro r1' r2' hagree
    show dcScan identStr r1' r2' 0 n = Except.ok (some ident)
    have hstep' : dcStep identStr r1' r2' i = StepRes.ret (some ident) := by
      rw [dcStep_congr identStr r1 r2 r1' r2' i (hagree i le_rfl).1 (hagree i le_rfl).2]
      exact hstep
    refine dcScan_reach identStr r1' r2' i (some ident) n 0 (Nat.zero_le i) (by omega)
      (fun j _ hj => ?_) hstep'
    rw [dcStep_congr identStr r1 r2 r1' r2' j (hagree j (le_of_lt hj)).1
      (hagree j (le_of_lt hj)).2]
    exact hscan j hj

/-- Witness for C1: with sentinel byte 73, the sample left/right disclosure
pair decodes at position 0 and `determineCheater` reports alice. -/
theorem determineCheater_returns_identity_immediately_witness :
    determineCheater 1 [73] [7] (some [sampleElemL]) (some [sampleElemR]) =
      Except.ok (some aliceStr) :=
  (determineCheater_returns_identity_immediately 1 [73] [7] [sampleElemL] [sampleElemR] 0
    sampleElemL sampleElemR aliceStr (by decide) (fun j hj => absurd hj (Nat.not_lt_zero j))
    rfl rfl (by decide) (by decide) (by decide) (by decide)).1

/-- C2: passing the same transcript of length `n` twice always yields the
merchant verdict; more generally, whenever both transcripts cover the `n`
scanned positions and no position holds differing values whose one-time-pad
combination decodes to a string with the `identStr` prefix,
`determineCheater` returns the merchant verdict. -/
theorem determineCheater_identical_transcript_merchant
    (n : Nat) (identStr guid : List Nat) :
    (∀ t : List RisElement, t.length = n →
      determineCheater n identStr guid (some t) (some t) = Except.ok (some merchantStr)) ∧
    (∀ r1 r2 : List RisElement, n ≤ r1.length → n ≤ r2.length →
      (∀ j, j < n → ∀ a b : RisElement, r1.get? j = some a → r2.get? j = some b →
        a.value ≠ b.value → ∀ d, decryptOTP a.value b.value = some d →
          identStr.isPrefixOf d = false) →
      determineCheater n identStr guid (some r1) (some r2) = Except.ok (some merchantStr)) := by
  have hgen : ∀ r1 r2 : List RisElement, n ≤ r1.length → n ≤ r2.length →
      (∀ j, j < n → ∀ a b : RisElement, r1.get? j = some a → r2.get? j = some b →
        a.value ≠ b.value → ∀ d, decryptOTP a.value b.value = some d →
          identStr.isPrefixOf d = false) →
      determineCheater n identStr guid (some r1) (some r2) = Except.ok (some merchantStr) := by
    intro r1 r2 h1 h2 hno
    show dcScan identStr r1 r2 0 n = Except.ok (some merchantStr)
    apply dcScan_all_cont
    intro j hj1 hj2
    have hjn : j < n := by omega
    obtain ⟨a, ha⟩ : ∃ a, r1.get? j = some a := ⟨_, List.get?_eq_get (by omega)⟩
    obtain ⟨b, hb⟩ : ∃ b, r2.get? j = some b := ⟨_, List.get?_eq_get (by omega)⟩
    simp only [dcStep, ha, hb]
    by_cases hv : a.value = b.value
    · rw [if_pos hv]
    · rw [if_neg hv]
      cases hdec : decryptOTP a.value b.value with
      | none => rfl
      | some d =>
        have hpref := hno j hjn a b ha hb hv d hdec
        simp [hpref]
  refine ⟨fun t ht => hgen t t (by omega) (by omega) ?_, hgen⟩
  intro j hj a b ha hb hne d hd
  rw [ha] at hb
  cases hb
  exact absurd rfl hne

/-- Witness for C2: the merchant verdict on a concrete identical pair and on
a concrete pair with no decodable position. -/
theorem determineCheater_identical_transcript_merchant_witness :
    determineCheater 1 [73] [7] (some [sampleElemA]) (some [sampleElemA]) =
      Except.ok (some merchantStr) ∧
    determineCheater 1 [73] [7] (some [sampleElemA]) (some [sampleElemC]) =
      Except.ok (some merchantStr) := by
  constructor
  · exact (determineCheater_identical_transcript_merchant 1 [73] [7]).1 [sampleElemA] rfl
  · refine (determineCheater_identical_transcript_merchant 1 [73] [7]).2
      [sampleElemA] [sampleElemC] (by decide) (by decide) ?_
    intro j hj a b ha hb hne d hd
    have hj0 : j = 0 := Nat.lt_one_iff.mp hj
    subst hj0
    have ha' : sampleElemA = a := by simpa using ha
    have hb' : sampleElemC = b := by simpa using hb
    subst ha'
    subst hb'
    simp [decryptOTP, sampleElemA, sampleElemC] at hd

/-- C6 counterexample: a transcript of the wrong length (2 elements while
`COIN_RIS_LENGTH` is 1) is not rejected with the malformed-transcript
error; `determineCheater` scans it and returns the merchant verdict. -/
theorem determineCheater_wrong_length_not_rejected :
    ([sampleElemA, sampleElemA] : List RisElement).length ≠ 1 ∧
    determineCheater 1 [73] [7] (some [sampleElemA, sampleElemA])
      (some [sampleElemA, sampleElemA]) = Except.ok (some merchantStr) :=
  ⟨by decide, rfl⟩

/-- C6 amended: the malformed-transcript error is raised exactly when an
input is not an array; transcript length is never validated — array inputs
of any length are scanned and never produce the invalid-format error. -/
theorem determineCheater_format_error_only_nonarray
    (n : Nat) (identStr guid : List Nat) :
    (∀ ris2, determineCheater n identStr guid none ris2 = Except.error DCError.invalidFormat) ∧
    (∀ ris1, determineCheater n identStr guid ris1 none = Except.error DCError.invalidFormat) ∧
    (∀ r1 r2 : List RisElement,
      determineCheater n identStr guid (some r1) (some r2) ≠
        Except.error DCError.invalidFormat) := by
  refine ⟨fun ris2 => rfl, fun ris1 => ?_, fun r1 r2 => dcScan_not_invalidFormat identStr r1 r2 n 0⟩
  cases ris1 <;> rfl

/-- Witness for C6 amended: a non-array first argument is rejected with the
invalid-format error. -/
theorem determineCheater_format_error_only_nonarray_witness :
    determineCheater 1 [73] [7] none (some [sampleElemA]) =
      Except.error DCError.invalidFormat :=
  (determineCheater_format_error_only_nonarray 1 [73] [7]).1 (some [sampleElemA])

/-- C8: a one-time-pad decode failure at a position of the scanning loop is
recovered locally — the loop continues with the next position — and decode
failures never propagate out of `determineCheater`: whenever both
transcripts cover the scanned positions, the call returns normally. -/
theorem determineCheater_decode_failure_recovered
    (identStr : List Nat) (r1 r2 : List RisElement) :
    (∀ i fuel (a b : RisElement), r1.get? i = some a → r2.get? i = some b →
      a.value ≠ b.value → decryptOTP a.value b.value = none →
      dcScan identStr r1 r2 i (fuel + 1) = dcScan identStr r1 r2 (i + 1) fuel) ∧
    (∀ n guid, n ≤ r1.length → n ≤ r2.length →
      ∃ v, determineCheater n identStr guid (some r1) (some r2) = Except.ok v) := by
  constructor
  · intro i fuel a b ha hb hne hdec
    have hstep : dcStep identStr r1 r2 i = StepRes.cont := by
      simp only [dcStep, ha, hb, if_neg hne, hdec]
    simp only [dcScan, hstep]
  · intro n guid h1 h2
    show ∃ v, dcScan identStr r1 r2 0 n = Except.ok v
    apply dcScan_no_crash
    intro j hj1 hj2
    exact dcStep_ne_crash identStr r1 r2 j (by omega) (by omega)

/-- Witness for C8: a concrete scan step with a failing decode (shares of
mismatched length) continues to the next position, and the whole call still
returns normally. -/
theorem determineCheater_decode_failure_recovered_witness :
    dcScan [73] [sampleElemA] [sampleElemC] 0 1 = dcScan [73] [sampleElemA] [sampleElemC] 1 0 ∧
    ∃ v, determineCheater 1 [73] [7] (some [sampleElemA]) (some [sampleElemC]) = Except.ok v :=
  ⟨(determineCheater_decode_failure_recovered [73] [sampleElemA] [sampleElemC]).1 0 0
     sampleElemA sampleElemC rfl rfl (by decide) (by decide),
   (determineCheater_decode_failure_recovered [73] [sampleElemA] [sampleElemC]).2 1 [7]
     (by decide) (by decide)⟩

/-- C3: whenever signature verification of the coin fails, `acceptCoin`
fails with the invalid-signature error and no disclosure challenge is
issued: the log of `getRis` calls of the run is empty, so verification is
evaluated before any per-position challenge. -/
theorem acceptCoin_invalid_signature_no_challenge
    (bsVerify : Int → List Nat → Except JsErr Bool) (coin : Coin)
    (h : verifySignature bsVerify coin = Except.ok false) :
    (acceptCoin bsVerify coin).result = Except.error AcceptError.invalidSignature ∧
      (acceptCoin bsVerify coin).getRisCalls = [] := by
  simp [acceptCoin, h]

/-- Witness for C3: a verify primitive that rejects makes the sample coin
fail acceptance with the invalid-signature error and no challenge. -/
theorem acceptCoin_invalid_signature_no_challenge_witness :
    (acceptCoin (fun _ _ => Except.ok false) sampleCoin).result =
        Except.error AcceptError.invalidSignature ∧
      (acceptCoin (fun _ _ => Except.ok false) sampleCoin).getRisCalls = [] :=
  acceptCoin_invalid_signature_no_challenge (fun _ _ => Except.ok false) sampleCoin rfl

/-- C4 divergence: the per-position hash check of the disclosure loop can
never fire — `acceptCoin` never fails with the RIS-tamper error at any
position, because the `parseCoin` ReferenceError precedes the loop. -/
theorem acceptCoin_never_ris_tamper
    (bsVerify : Int → List Nat → Except JsErr Bool) (coin : Coin) (i : Nat) :
    (acceptCoin bsVerify coin).result ≠ Except.error (AcceptError.risTamper i) := by
  cases hv : verifySignature bsVerify coin with
  | error e => simp [acceptCoin, hv]
  | ok b => cases b <;> simp [acceptCoin, hv]

/-- C5: on every coin whose signature verifies, `acceptCoin` throws the
ReferenceError of the undefined identifier `parseCoin`. -/
theorem acceptCoin_reference_error
    (bsVerify : Int → List Nat → Except JsErr Bool) (coin : Coin)
    (h : verifySignature bsVerify coin = Except.ok true) :
    (acceptCoin bsVerify coin).result = Except.error AcceptError.referenceError := by
  simp [acceptCoin, h]

/-- Witness for C5: with a verify primitive that accepts, the sample coin's
acceptance throws the ReferenceError. -/
theorem acceptCoin_reference_error_witness :
    (acceptCoin (fun _ _ => Except.ok true) sampleCoin).result =
      Except.error AcceptError.referenceError :=
  acceptCoin_reference_error (fun _ _ => Except.ok true) sampleCoin rfl

/-- C7 divergence: no invocation of `acceptCoin` ever returns a transcript
— acceptance always throws (invalid signature, a propagated verification
error, or the `parseCoin` ReferenceError). -/
theorem acceptCoin_never_returns_transcript
    (bsVerify : Int → List Nat → Except JsErr Bool) (coin : Coin)
    (t : List RisElement) :
    (acceptCoin bsVerify coin).result ≠ Except.ok t := by
  cases hv : verifySignature bsVerify coin with
  | error e => simp [acceptCoin, hv]
  | ok b => cases b <;> simp [acceptCoin, hv]

/-- C9: on any two acceptance transcripts of a coin whose share pairs all
encode the identity alice, `determineCheater` returns either alice or the
merchant verdict, never any other value. -/
theorem determineCheater_alice_or_merchant
    (n : Nat) (identStr guid : List Nat) (coin : Coin) (t1 t2 : List RisElement)
    (hcolon : colonByte ∉ identStr)
    (henc : coinEncodes identStr aliceStr n coin = true)
    (ht1 : isTranscriptOf coin n t1 = true)
    (ht2 : isTranscriptOf coin n t2 = true) :
    determineCheater n identStr guid (some t1) (some t2) = Except.ok (some aliceStr) ∨
      determineCheater n identStr guid (some t1) (some t2) =
        Except.ok (some merchantStr) := by
  have hca : colonByte ∉ aliceStr := by decide
  show dcScan identStr t1 t2 0 n = _ ∨ dcScan identStr t1 t2 0 n = _
  apply dcScan_cases
  intro j hj0 hjn'
  have hjn : j < n := by omega
  obtain ⟨e1, he1, hv1⟩ := isTranscriptOf_get ht1 j hjn
  obtain ⟨e2, he2, hv2⟩ := isTranscriptOf_get ht2 j hjn
  obtain ⟨l, r, hl, hr, hlen, hxor⟩ := coinEncodes_get henc j hjn
  by_cases hv : e1.value = e2.value
  · left
    simp only [dcStep, he1, he2, if_pos hv]
  · have hval1 : e1.value = l ∨ e1.value = r := by
      rw [hv1]
      cases e1.isLeft with
      | false =>
        right
        show (coin.rightIdent.get? j).getD [] = r
        rw [hr]
        rfl
      | true =>
        left
        show (coin.leftIdent.get? j).getD [] = l
        rw [hl]
        rfl
    have hval2 : e2.value = l ∨ e2.value = r := by
      rw [hv2]
      cases e2.isLeft with
      | false =>
        right
        show (coin.rightIdent.get? j).getD [] = r
        rw [hr]
        rfl
      | true =>
        left
        show (coin.leftIdent.get? j).getD [] = l
        rw [hl]
        rfl
    rcases hval1 with h1 | h1 <;> rcases hval2 with h2 | h2
    · exact absurd (h1.trans h2.symm) hv
    · right
      have hlr : l ≠ r := fun he => hv (by rw [h1, h2, he])
      have hdec : decryptOTP l r = some (identStr ++ colonByte :: aliceStr) := by
        rw [decryptOTP, if_pos hlen, hxor]
      simp only [dcStep, he1, he2, h1, h2, if_neg hlr, hdec, isPrefixOf_self_append, if_true]
      rw [jsSplitSecond_delimited colonByte identStr aliceStr hcolon hca]
    · right
      have hlr : r ≠ l := fun he => hv (by rw [h1, h2, he])
      have hdec : decryptOTP r l = some (identStr ++ colonByte :: aliceStr) := by
        rw [decryptOTP, if_pos hlen.symm, zipWithXor_comm, hxor]
      simp only [dcStep, he1, he2, h1, h2, if_neg hlr, hdec, isPrefixOf_self_append, if_true]
      rw [jsSplitSecond_delimited colonByte identStr aliceStr hcolon hca]
    · exact absurd (h1.trans h2.symm) hv

/-- Witness for C9: the sample coin's two one-position transcripts disclose
opposite sides and `determineCheater` reports alice or merchant. -/
theorem determineCheater_alice_or_merchant_witness :
    determineCheater 1 [73] [7] (some [sampleElemL]) (some [sampleElemR]) =
        Except.ok (some aliceStr) ∨
      determineCheater 1 [73] [7] (some [sampleElemL]) (some [sampleElemR]) =
        Except.ok (some merchantStr) :=
  determineCheater_alice_or_merchant 1 [73] [7] sampleCoin [sampleElemL] [sampleElemR]
    (by decide) (by decide) (by decide) (by decide)

/-- C10: `verifySignature` always returns a boolean instead of throwing —
in particular it returns false when the coin's signature is absent and when
the external verify primitive throws — and the message it verifies is
derived from the coin's own serialization: the result depends on the coin
only through its signature and its `toString` serialization. -/
theorem verifySignature_never_throws_message_from_coin
    (bsVerify : Int → List Nat → Except JsErr Bool) (coin : Coin) :
    (∃ b, verifySignature bsVerify coin = Except.ok b) ∧
      (coin.signature = none → verifySignature bsVerify coin = Except.ok false) ∧
      (∀ sig e, coin.signature = some sig →
        bsVerify sig (Coin.toString coin) = Except.error e →
        verifySignature bsVerify coin = Except.ok false) ∧
      (∀ coin2 : Coin, coin.signature = coin2.signature →
        Coin.toString coin = Coin.toString coin2 →
        verifySignature bsVerify coin = verifySignature bsVerify coin2) := by
  refine ⟨?_, ?_, ?_, ?_⟩
  · cases hs : coin.signature with
    | none => exact ⟨false, by simp [verifySignature, hs]⟩
    | some s =>
      cases hb : bsVerify s (Coin.toString coin) with
      | ok b => exact ⟨b, by simp [verifySignature, hs, hb]⟩
      | error e => exact ⟨false, by simp [verifySignature, hs, hb]⟩
  · intro hs
    simp [verifySignature, hs]
  · intro sig e hs hb
    simp [verifySignature, hs, hb]
  · intro coin2 hsig hmsg
    unfold verifySignature
    rw [hsig]
    simp only [hmsg]

/-- Witness for C10: with a primitive that always throws, verification of
the unsigned sample coin and of the signed sample coin both return false
without raising. -/
theorem verifySignature_never_throws_message_from_coin_witness :
    (∃ b, verifySignature (fun _ _ => Except.error JsErr.otherError) sampleCoinUnsigned =
        Except.ok b) ∧
      verifySignature (fun _ _ => Except.error JsErr.otherError) sampleCoinUnsigned =
        Except.ok false ∧
      verifySignature (fun _ _ => Except.error JsErr.otherError) sampleCoin =
        Except.ok false :=
  ⟨(verifySignature_never_throws_message_from_coin
      (fun _ _ => Except.error JsErr.otherError) sampleCoinUnsigned).1,
   (verifySignature_never_throws_message_from_coin
      (fun _ _ => Except.error JsErr.otherError) sampleCoinUnsigned).2.1 rfl,
   (verifySignature_never_throws_message_from_coin
      (fun _ _ => Except.error JsErr.otherError) sampleCoin).2.2.1 0 JsErr.otherError rfl rfl⟩
